import Mathlib

/-!
# CSV ingestion and category aggregation — verification development

Shallow embedding of the core data pipeline of `app.js` (CSV parser,
numeric/geography normalization helpers, and the category aggregator),
together with proofs of the specification claims about them.

Modelling conventions:
* JavaScript strings are Lean `String`s; per-character operations are done
  on `List Char`.
* JavaScript numbers are modelled as exact rationals (`ℚ`).  `Number(s)`
  followed by the `Number.isFinite` test is modelled by `jsNumber : String →
  Option ℚ`, where `none` stands for `NaN` or `±Infinity` (the two cases the
  source collapses to `0`).  Double-precision rounding is not modelled;
  overflow to `Infinity` is modelled by the exact double overflow threshold
  `2^1024`.
* A JavaScript object used as a string-keyed record is an association list
  whose keys are unique by construction (`objInsert` overwrites in place,
  preserving first-insertion order, exactly like JS property assignment).
* `new Set([...]).has x` is membership in the corresponding list.
-/

/-- The set of characters trimmed by JavaScript `String.prototype.trim`
(ECMAScript WhiteSpace ∪ LineTerminator). -/
def isJsWs (c : Char) : Bool :=
  c = ' ' ∨ c = '\t' ∨ c = '\n' ∨ c = '\r' ∨ c = '\x0b' ∨ c = '\x0c' ∨
  c = ' ' ∨ c = ' ' ∨ (' ' ≤ c ∧ c ≤ ' ') ∨
  c = ' ' ∨ c = ' ' ∨ c = ' ' ∨ c = ' ' ∨
  c = '　' ∨ c = '﻿'

/-- Remove trailing, then leading, JS whitespace from a character list. -/
def jsTrimList (l : List Char) : List Char :=
  ((l.reverse.dropWhile isJsWs).reverse).dropWhile isJsWs

/-- JavaScript `s.trim()`. -/
def jsTrim (s : String) : String := String.mk (jsTrimList s.toList)

/-- JavaScript `s.toUpperCase()` (ASCII fragment, which is all the source
data exercises). -/
def jsToUpper (s : String) : String := String.mk (s.toList.map Char.toUpper)

/-- Split a character list on the regular expression `/\r?\n/`: a `\r\n`
pair or a lone `\n` separates lines; a lone `\r` does not. -/
def splitLinesList (l : List Char) : List (List Char) :=
  match l with
  | [] => [[]]
  | '\r' :: '\n' :: rest => [] :: splitLinesList rest
  | '\n' :: rest => [] :: splitLinesList rest
  | c :: rest =>
    match splitLinesList rest with
    | [] => [[c]]
    | line :: ls => (c :: line) :: ls

/-- JavaScript `text.split(/\r?\n/)`. -/
def jsSplitLines (s : String) : List String :=
  (splitLinesList s.toList).map String.mk

/-- Numeric value of a decimal digit character. -/
def digVal (c : Char) : ℕ := c.toNat - 48

/-- Value of a string of decimal digits. -/
def natOfDigits (l : List Char) : ℕ := l.foldl (fun a c => a * 10 + digVal c) 0

/-- Hexadecimal digit test. -/
def isHexDig (c : Char) : Bool :=
  c.isDigit ∨ ('a' ≤ c ∧ c ≤ 'f') ∨ ('A' ≤ c ∧ c ≤ 'F')

/-- Numeric value of a hexadecimal digit character. -/
def hexVal (c : Char) : ℕ :=
  if c.isDigit then c.toNat - 48
  else if 'a' ≤ c ∧ c ≤ 'f' then c.toNat - 87
  else c.toNat - 55

/-- Value of a string of hexadecimal digits. -/
def natOfHex (l : List Char) : ℕ := l.foldl (fun a c => a * 16 + hexVal c) 0

/-- Value of a string of octal digits. -/
def natOfOct (l : List Char) : ℕ := l.foldl (fun a c => a * 8 + digVal c) 0

/-- Value of a string of binary digits. -/
def natOfBin (l : List Char) : ℕ := l.foldl (fun a c => a * 2 + digVal c) 0

/-- Parse the exponent part following `e`/`E`: an optional sign and a
nonempty digit string. -/
def parseExpPart (l : List Char) : Option ℤ :=
  match l with
  | '+' :: rest =>
    if rest ≠ [] ∧ rest.all Char.isDigit then some (natOfDigits rest) else none
  | '-' :: rest =>
    if rest ≠ [] ∧ rest.all Char.isDigit then some (-(natOfDigits rest : ℤ)) else none
  | _ => if l ≠ [] ∧ l.all Char.isDigit then some (natOfDigits l) else none

/-- Parse an unsigned decimal mantissa: `digits`, `digits.digits`,
`digits.`, or `.digits` (not both parts empty). -/
def parseMantissa (l : List Char) : Option ℚ :=
  match l.splitOn '.' with
  | [ip] =>
    if ip ≠ [] ∧ ip.all Char.isDigit then some (natOfDigits ip) else none
  | [ip, fp] =>
    if (ip ≠ [] ∨ fp ≠ []) ∧ ip.all Char.isDigit ∧ fp.all Char.isDigit then
      some ((natOfDigits ip : ℚ) + (natOfDigits fp : ℚ) / (10 : ℚ) ^ fp.length)
    else none
  | _ => none

/-- Parse ECMAScript `StrUnsignedDecimalLiteral`.  `Infinity` is a valid
parse but a non-finite value, so it is `none` here (the source immediately
discards non-finite values). -/
def parseUnsignedDec (l : List Char) : Option ℚ :=
  if l = "Infinity".toList then none
  else
    match (l.map (fun c => if c = 'E' then 'e' else c)).splitOn 'e' with
    | [m] => parseMantissa m
    | [m, e] =>
      match parseMantissa m, parseExpPart e with
      | some mv, some ev => some (mv * (10 : ℚ) ^ ev)
      | _, _ => none
    | _ => none

/-- Parse ECMAScript `NonDecimalIntegerLiteral` (`0x…`, `0o…`, `0b…`;
no sign allowed). -/
def parseNonDec (l : List Char) : Option ℚ :=
  match l with
  | '0' :: x :: rest =>
    if x = 'x' ∨ x = 'X' then
      if rest ≠ [] ∧ rest.all isHexDig then some (natOfHex rest) else none
    else if x = 'o' ∨ x = 'O' then
      if rest ≠ [] ∧ rest.all (fun c => '0' ≤ c ∧ c ≤ '7') then some (natOfOct rest) else none
    else if x = 'b' ∨ x = 'B' then
      if rest ≠ [] ∧ rest.all (fun c => c = '0' ∨ c = '1') then some (natOfBin rest) else none
    else none
  | _ => none

/-- `StrNumericLiteral` on an already-trimmed character list.  `none`
stands for `NaN` (no parse) or `±Infinity`. -/
def jsNumberList (l : List Char) : Option ℚ :=
  match l with
  | [] => some 0
  | '+' :: rest => parseUnsignedDec rest
  | '-' :: rest => (parseUnsignedDec rest).map Neg.neg
  | _ =>
    match parseNonDec l with
    | some q => some q
    | none => parseUnsignedDec l

/-- Doubles overflow to `Infinity` from `2^1024` upward; the rounding at
the exact boundary is not modelled. -/
def doubleOverflow : ℚ := ((2 ^ 1024 : ℕ) : ℚ)

/-- `Number(s)` restricted by `Number.isFinite`: `some q` iff `s` parses to
the finite number `q`, `none` for `NaN` and `±Infinity`.  The argument is
assumed trimmed (the source always trims first). -/
def jsNumber (s : String) : Option ℚ :=
  match jsNumberList s.toList with
  | some q => if doubleOverflow ≤ |q| then none else some q
  | none => none

/-- `toNum` from `app.js`: convert a raw cell value (`none` = the key was
absent, i.e. `undefined`) to a number, treating empty/`NA`/unparseable as
`0`. -/
def toNum (v : Option String) : ℚ :=
  let s := jsTrim (v.getD "")
  if s = "" ∨ jsToUpper s = "NA" then 0
  else (jsNumber s).getD 0

/-- `normCounty` from `app.js`: missing becomes the empty string; trim and
uppercase. -/
def normCounty (v : Option String) : String := jsToUpper (jsTrim (v.getD ""))

/-- A parsed CSV row: a JS object as an association list with unique keys
in insertion order. -/
abbrev Row := List (String × String)

/-- `row[k]`: the stored value, or `none` when the key is absent. -/
def getV (r : Row) (k : String) : Option String :=
  (r.find? (fun p => p.1 == k)).map Prod.snd

/-- JS property assignment `obj[k] = v`: overwrite in place if the key
exists, otherwise append. -/
def objInsert (r : Row) (k v : String) : Row :=
  if r.any (fun p => p.1 == k) then
    r.map (fun p => if p.1 == k then (k, v) else p)
  else r ++ [(k, v)]

/-- One step of the row-building loop: assign header `hi.2` (at index
`hi.1`) the trimmed `i`-th value, empty when the line is short. -/
def insHV (values : List String) (obj : Row) (hi : ℕ × String) : Row :=
  objInsert obj hi.2 (jsTrim ((values.get? hi.1).getD ""))

/-- `headers.forEach((h, i) => obj[h] = (values[i] ?? "").trim())` starting
from the empty object. -/
def buildRow (headers values : List String) : Row :=
  headers.enum.foldl (insHV values) []

/-- The header list of a split input: first line split on `,`, each header
trimmed. -/
def headersOfLines (lines : List String) : List String :=
  ((lines.head?.getD "").splitOn ",").map jsTrim

/-- The body of `parseCSV` after line splitting: every line after the
header becomes a row object. -/
def parseLines (lines : List String) : List Row :=
  (lines.drop 1).map (fun line => buildRow (headersOfLines lines) (line.splitOn ","))

/-- `parseCSV` from `app.js`. -/
def parseCSV (text : String) : List Row :=
  parseLines (jsSplitLines (jsTrim text))

/-- `targetCounty` from `app.js` (`new Set(["ELK", "MAR", "SJ"])`). -/
def targetCounty : List String := ["ELK", "MAR", "SJ"]

/-- `columnMap` from `app.js`: category key → CSV column name, in
declaration order. -/
def columnMap : List (String × String) :=
  [("proteins", "Proteins LBS"),
   ("starch", "Starch LBS"),
   ("veg", "Veg LBS"),
   ("fruit", "Fruit LBS"),
   ("baked_goods", "Baked Goods LBS"),
   ("dairy", "Dairy LBS"),
   ("grocery", "Grocery LBS"),
   ("individual_meal_lbs", "Indvid Meal LBS")]

/-- The row filter of `computeCategoryTotals`:
`targetCounty.has(normCounty(row["County"]))`. -/
def rowAccepted (row : Row) : Bool :=
  targetCounty.contains (normCounty (getV row "County"))

/-- `totals[k] += v` on the totals object. -/
def updateAdd (t : List (String × ℚ)) (k : String) (v : ℚ) : List (String × ℚ) :=
  t.map (fun p => if p.1 == k then (p.1, p.2 + v) else p)

/-- The per-row step of `computeCategoryTotals`: skip rows outside the
target counties, otherwise add every mapped column's numeric value to its
category total. -/
def aggStep (t : List (String × ℚ)) (row : Row) : List (String × ℚ) :=
  if rowAccepted row then
    columnMap.foldl (fun t kc => updateAdd t kc.1 (toNum (getV row kc.2))) t
  else t

/-- The zero-initialized totals object, one entry per `columnMap` key in
declaration order. -/
def initTotals : List (String × ℚ) := columnMap.map (fun p => (p.1, 0))

/-- `computeCategoryTotals` from `app.js`. -/
def computeCategoryTotals (rows : List Row) : List (String × ℚ) :=
  rows.foldl aggStep initTotals

/-- `totals[k]` on the totals object. -/
def lookupQ (t : List (String × ℚ)) (k : String) : Option ℚ :=
  (t.find? (fun p => p.1 == k)).map Prod.snd

/-- The sum of the `toNum` values of column `c` over the accepted rows:
what `computeCategoryTotals` accumulates for the category mapped to `c`. -/
def contribSum (rows : List Row) (c : String) : ℚ :=
  ((rows.filter rowAccepted).map (fun r => toNum (getV r c))).sum

/-- Two row objects are observably equal when every property lookup
agrees. -/
def RowEquiv (r r' : Row) : Prop := ∀ k : String, getV r k = getV r' k

set_option maxRecDepth 2000
set_option exponentiation.threshold 2000

example : toNum (some " 12.5 ") = 25 / 2 := by with_unfolding_all rfl
example : toNum (some "abc") = 0 := by with_unfolding_all rfl
example : toNum (some "1e3") = 1000 := by with_unfolding_all rfl
example : toNum (some "-5") = -5 := by with_unfolding_all rfl
example : toNum none = 0 := by with_unfolding_all rfl
example : normCounty (some " elk ") = "ELK" := by decide
example : parseCSV "H1,H2\n" = [] := by decide
example :
    parseCSV "County,Proteins LBS\nELK, 10\nmar,5"
      = [[("County", "ELK"), ("Proteins LBS", "10")],
         [("County", "mar"), ("Proteins LBS", "5")]] := by with_unfolding_all rfl
example :
    computeCategoryTotals
      [[("County", "ELK"), ("Proteins LBS", "10")],
       [("County", "XXX"), ("Proteins LBS", "999")],
       [("County", "mar"), ("Proteins LBS", "5")]]
      = [("proteins", 15), ("starch", 0), ("veg", 0), ("fruit", 0),
         ("baked_goods", 0), ("dairy", 0), ("grocery", 0),
         ("individual_meal_lbs", 0)] := by with_unfolding_all rfl

/-! ## Row-object lookup lemmas -/

theorem getV_nil (k : String) : getV [] k = none := rfl

theorem find?_overwrite (r : Row) (k v : String)
    (h : r.any (fun p => p.1 == k) = true) :
    (r.map (fun p => if p.1 == k then (k, v) else p)).find? (fun p => p.1 == k)
      = some (k, v) := by
  induction r with
  | nil => simp at h
  | cons p r ih =>
    rcases eq_or_ne p.1 k with hp | hp
    · simp [List.find?_cons, hp]
    · rw [List.map_cons, if_neg (by simp [hp]), List.find?_cons_of_neg _ (by simp [hp])]
      exact ih (by simpa [hp] using h)

theorem find?_map_ne (r : Row) (k v k' : String) (h : k' ≠ k) :
    (r.map (fun p => if p.1 == k then (k, v) else p)).find? (fun p => p.1 == k')
      = r.find? (fun p => p.1 == k') := by
  induction r with
  | nil => rfl
  | cons p r ih =>
    rcases eq_or_ne p.1 k with hp | hp
    · rw [List.map_cons, if_pos (by simp [hp]),
        List.find?_cons_of_neg _ (by simp [Ne.symm h]),
        List.find?_cons_of_neg _ (by simp [hp, Ne.symm h])]
      exact ih
    · rw [List.map_cons, if_neg (by simp [hp])]
      rcases eq_or_ne p.1 k' with hp2 | hp2
      · rw [List.find?_cons_of_pos _ (by simp [hp2]), List.find?_cons_of_pos _ (by simp [hp2])]
      · rw [List.find?_cons_of_neg _ (by simp [hp2]), List.find?_cons_of_neg _ (by simp [hp2])]
        exact ih

theorem getV_objInsert_self (r : Row) (k v : String) :
    getV (objInsert r k v) k = some v := by
  unfold objInsert getV
  by_cases h : r.any (fun p => p.1 == k) = true
  · rw [if_pos h, find?_overwrite r k v h]; rfl
  · rw [if_neg h, List.find?_append]
    have hr : r.find? (fun p => p.1 == k) = none := by
      rw [List.find?_eq_none]
      intro p hp
      simp only [Bool.not_eq_true]
      by_contra hc
      exact h (List.any_eq_true.2 ⟨p, hp, by simpa using hc⟩)
    simp [hr, List.find?_cons]

theorem getV_objInsert_ne (r : Row) (k v k' : String) (h : k' ≠ k) :
    getV (objInsert r k v) k' = getV r k' := by
  unfold objInsert getV
  by_cases ha : r.any (fun p => p.1 == k) = true
  · rw [if_pos ha, find?_map_ne r k v k' h]
  · rw [if_neg ha, List.find?_append]
    have h1 : List.find? (fun p => p.1 == k') [(k, v)] = none := by
      simp [List.find?_cons, Ne.symm h]
    simp [h1]

/-! ## buildRow lemmas -/

theorem getV_insFold_not_mem (vs : List String) (ps : List (ℕ × String)) (r : Row)
    (k : String) (h : k ∉ ps.map Prod.snd) :
    getV (ps.foldl (insHV vs) r) k = getV r k := by
  induction ps generalizing r with
  | nil => rfl
  | cons p ps ih =>
    simp only [List.map_cons, List.mem_cons, not_or] at h
    rw [List.foldl_cons, ih _ h.2, insHV, getV_objInsert_ne _ _ _ _ h.1]

theorem getV_insFold_isSome (vs : List String) (ps : List (ℕ × String)) (r : Row)
    (k : String) :
    (getV (ps.foldl (insHV vs) r) k).isSome = true ↔
      (getV r k).isSome = true ∨ k ∈ ps.map Prod.snd := by
  induction ps generalizing r with
  | nil => simp
  | cons p ps ih =>
    rw [List.foldl_cons, ih]
    rcases eq_or_ne k p.2 with hk | hk
    · subst hk
      simp [insHV, getV_objInsert_self]
    · rw [insHV, getV_objInsert_ne _ _ _ _ hk]
      simp only [List.map_cons, List.mem_cons]
      tauto

theorem getV_insFold_mem_nodup (vs : List String) (ps : List (ℕ × String)) (r : Row)
    (i : ℕ) (k : String) (hnd : (ps.map Prod.snd).Nodup) (hm : (i, k) ∈ ps) :
    getV (ps.foldl (insHV vs) r) k = some (jsTrim ((vs.get? i).getD "")) := by
  induction ps generalizing r with
  | nil => simp at hm
  | cons p ps ih =>
    simp only [List.map_cons, List.nodup_cons] at hnd
    rcases List.mem_cons.1 hm with hm | hm
    · rw [List.foldl_cons, getV_insFold_not_mem _ _ _ _ (by rw [← hm] at hnd; exact hnd.1)]
      rw [insHV, ← hm]
      exact getV_objInsert_self r k _
    · have hk : k ≠ p.2 := by
        intro h
        exact hnd.1 (h ▸ List.mem_map.2 ⟨(i, k), hm, rfl⟩)
      rw [List.foldl_cons]
      exact ih _ hnd.2 hm

theorem getV_insFold_const (vs : List String)
    (hconst : ∀ i, jsTrim ((vs.get? i).getD "") = "")
    (ps : List (ℕ × String)) (r : Row) (k : String) :
    getV (ps.foldl (insHV vs) r) k
      = if k ∈ ps.map Prod.snd then some "" else getV r k := by
  induction ps generalizing r with
  | nil => simp
  | cons p ps ih =>
    rw [List.foldl_cons, ih]
    by_cases hk : k ∈ ps.map Prod.snd
    · simp [hk]
    · rcases eq_or_ne k p.2 with hk2 | hk2
      · subst hk2
        simp only [List.map_cons, List.mem_cons, hk, or_false, insHV, if_true, if_false,
          eq_self_iff_true]
        have hc : jsTrim ((vs.get? p.1).getD "") = "" := hconst p.1
        rw [hc, getV_objInsert_self]
      · rw [insHV, getV_objInsert_ne _ _ _ _ hk2]
        simp [hk, hk2]

theorem getV_buildRow_isSome (hs vs : List String) (k : String) :
    (getV (buildRow hs vs) k).isSome = true ↔ k ∈ hs := by
  have h := getV_insFold_isSome vs hs.enum [] k
  rw [buildRow]
  simpa [List.enum_map_snd, getV_nil] using h

theorem getV_buildRow_get (hs vs : List String) (hnd : hs.Nodup) (i : ℕ)
    (hi : i < hs.length) :
    getV (buildRow hs vs) (hs.get ⟨i, hi⟩) = some (jsTrim ((vs.get? i).getD "")) := by
  apply getV_insFold_mem_nodup
  · rw [List.enum_map_snd]; exact hnd
  · rw [List.mk_mem_enum_iff_getElem?]
    simp [List.getElem?_eq_getElem hi]

/-! ## Totals-object lookup lemmas -/

theorem lookupQ_cons (a : String) (b : ℚ) (t : List (String × ℚ)) (k : String) :
    lookupQ ((a, b) :: t) k = if a = k then some b else lookupQ t k := by
  rcases eq_or_ne a k with h | h
  · rw [lookupQ, List.find?_cons_of_pos _ (by simp [h]), if_pos h]; rfl
  · rw [lookupQ, List.find?_cons_of_neg _ (by simp [h]), if_neg h]; rfl

theorem lookupQ_updateAdd (t : List (String × ℚ)) (k : String) (v : ℚ) (k' : String) :
    lookupQ (updateAdd t k v) k'
      = if k' = k then (lookupQ t k').map (· + v) else lookupQ t k' := by
  induction t with
  | nil =>
    simp only [updateAdd, List.map_nil, lookupQ, List.find?_nil, Option.map_none]
    split <;> rfl
  | cons p t ih =>
    obtain ⟨a, b⟩ := p
    have hmap : updateAdd ((a, b) :: t) k v
        = (if (a == k) = true then (a, b + v) else (a, b)) :: updateAdd t k v := by
      simp [updateAdd]
    rw [hmap]
    by_cases h1 : a = k
    · rw [if_pos (by simp [h1])]
      rw [lookupQ_cons, lookupQ_cons]
      by_cases h2 : a = k'
      · rw [if_pos h2, if_pos h2, if_pos (h2 ▸ h1)]
        rfl
      · rw [if_neg h2, if_neg h2, ih]
    · rw [if_neg (by simp [h1])]
      rw [lookupQ_cons, lookupQ_cons]
      by_cases h2 : a = k'
      · rw [if_pos h2, if_pos h2, if_neg (fun h => h1 (h2.trans h))]
      · rw [if_neg h2, if_neg h2, ih]

/-! ## Aggregation lemmas -/

theorem lookupQ_innerFold_not_mem (row : Row) (cmap : List (String × String))
    (t : List (String × ℚ)) (k : String) (h : k ∉ cmap.map Prod.fst) :
    lookupQ (cmap.foldl (fun t kc => updateAdd t kc.1 (toNum (getV row kc.2))) t) k
      = lookupQ t k := by
  induction cmap generalizing t with
  | nil => rfl
  | cons kc cmap ih =>
    simp only [List.map_cons, List.mem_cons, not_or] at h
    rw [List.foldl_cons, ih _ h.2, lookupQ_updateAdd, if_neg h.1]

theorem lookupQ_innerFold (row : Row) (cmap : List (String × String))
    (t : List (String × ℚ)) (k c : String)
    (hnd : (cmap.map Prod.fst).Nodup) (hm : (k, c) ∈ cmap) :
    lookupQ (cmap.foldl (fun t kc => updateAdd t kc.1 (toNum (getV row kc.2))) t) k
      = (lookupQ t k).map (· + toNum (getV row c)) := by
  induction cmap generalizing t with
  | nil => simp at hm
  | cons kc cmap ih =>
    simp only [List.map_cons, List.nodup_cons] at hnd
    rcases List.mem_cons.1 hm with hm | hm
    · rw [List.foldl_cons,
        lookupQ_innerFold_not_mem _ _ _ _ (by rw [← hm] at hnd; exact hnd.1),
        lookupQ_updateAdd, if_pos (by rw [← hm]), ← hm]
    · have hk : k ≠ kc.1 := fun h =>
        hnd.1 (h ▸ List.mem_map.2 ⟨(k, c), hm, rfl⟩)
      rw [List.foldl_cons, ih _ hnd.2 hm, lookupQ_updateAdd, if_neg hk]

theorem lookupQ_aggStep (t : List (String × ℚ)) (row : Row) (k c : String)
    (hm : (k, c) ∈ columnMap) :
    lookupQ (aggStep t row) k
      = (lookupQ t k).map (· + if rowAccepted row then toNum (getV row c) else 0) := by
  unfold aggStep
  by_cases h : rowAccepted row
  · rw [if_pos h, if_pos h, lookupQ_innerFold row columnMap t k c (by decide) hm]
  · rw [if_neg h, if_neg h]
    cases lookupQ t k <;> simp

theorem lookupQ_foldl_aggStep (rows : List Row) (t : List (String × ℚ)) (k c : String)
    (hm : (k, c) ∈ columnMap) :
    lookupQ (rows.foldl aggStep t) k = (lookupQ t k).map (· + contribSum rows c) := by
  induction rows generalizing t with
  | nil =>
    cases h : lookupQ t k <;> simp [contribSum, h]
  | cons r rows ih =>
    rw [List.foldl_cons, ih, lookupQ_aggStep t r k c hm]
    by_cases h : rowAccepted r
    · cases lookupQ t k <;>
        simp [contribSum, List.filter_cons, h, add_assoc]
    · cases lookupQ t k <;>
        simp [contribSum, List.filter_cons, h]

theorem lookupQ_initTotals (k c : String) (hm : (k, c) ∈ columnMap) :
    lookupQ initTotals k = some 0 := by
  fin_cases hm <;> rfl

theorem lookupQ_computeCategoryTotals (rows : List Row) (k c : String)
    (hm : (k, c) ∈ columnMap) :
    lookupQ (computeCategoryTotals rows) k = some (contribSum rows c) := by
  unfold computeCategoryTotals
  rw [lookupQ_foldl_aggStep rows initTotals k c hm, lookupQ_initTotals k c hm]
  simp

theorem map_fst_updateAdd (t : List (String × ℚ)) (k : String) (v : ℚ) :
    (updateAdd t k v).map Prod.fst = t.map Prod.fst := by
  rw [updateAdd, List.map_map]
  apply List.map_congr_left
  intro p _
  simp only [Function.comp_apply]
  split <;> rfl

theorem map_fst_innerFold (row : Row) (cmap : List (String × String))
    (t : List (String × ℚ)) :
    ((cmap.foldl (fun t kc => updateAdd t kc.1 (toNum (getV row kc.2))) t).map Prod.fst)
      = t.map Prod.fst := by
  induction cmap generalizing t with
  | nil => rfl
  | cons kc cmap ih => rw [List.foldl_cons, ih, map_fst_updateAdd]

theorem map_fst_aggStep (t : List (String × ℚ)) (row : Row) :
    (aggStep t row).map Prod.fst = t.map Prod.fst := by
  unfold aggStep
  split
  · exact map_fst_innerFold row columnMap t
  · rfl

theorem map_fst_foldl_aggStep (rows : List Row) (t : List (String × ℚ)) :
    ((rows.foldl aggStep t).map Prod.fst) = t.map Prod.fst := by
  induction rows generalizing t with
  | nil => rfl
  | cons r rows ih => rw [List.foldl_cons, ih, map_fst_aggStep]

theorem map_fst_computeCategoryTotals (rows : List Row) :
    (computeCategoryTotals rows).map Prod.fst = columnMap.map Prod.fst := by
  rw [computeCategoryTotals, map_fst_foldl_aggStep, initTotals, List.map_map]
  rfl

theorem nonneg_updateAdd (t : List (String × ℚ)) (k : String) (v : ℚ)
    (hv : 0 ≤ v) (ht : ∀ p ∈ t, 0 ≤ p.2) : ∀ p ∈ updateAdd t k v, 0 ≤ p.2 := by
  intro p hp
  rw [updateAdd, List.mem_map] at hp
  obtain ⟨q, hq, rfl⟩ := hp
  by_cases h : (q.1 == k) = true
  · rw [if_pos h]
    exact add_nonneg (ht q hq) hv
  · rw [if_neg h]
    exact ht q hq

theorem nonneg_innerFold (row : Row) (cmap : List (String × String))
    (t : List (String × ℚ))
    (hrow : ∀ kc ∈ cmap, 0 ≤ toNum (getV row kc.2)) (ht : ∀ p ∈ t, 0 ≤ p.2) :
    ∀ p ∈ cmap.foldl (fun t kc => updateAdd t kc.1 (toNum (getV row kc.2))) t, 0 ≤ p.2 := by
  induction cmap generalizing t with
  | nil => exact ht
  | cons kc cmap ih =>
    rw [List.foldl_cons]
    exact ih _ (fun kc h => hrow kc (List.mem_cons_of_mem _ h))
      (nonneg_updateAdd t kc.1 _ (hrow kc (List.mem_cons_self _ _)) ht)

theorem nonneg_aggStep (t : List (String × ℚ)) (row : Row)
    (hrow : ∀ kc ∈ columnMap, 0 ≤ toNum (getV row kc.2)) (ht : ∀ p ∈ t, 0 ≤ p.2) :
    ∀ p ∈ aggStep t row, 0 ≤ p.2 := by
  unfold aggStep
  split
  · exact nonneg_innerFold row columnMap t hrow ht
  · exact ht

/-! ## Parser lemmas -/

theorem splitLinesList_ne_nil (l : List Char) : splitLinesList l ≠ [] := by
  induction l using splitLinesList.induct <;> simp_all [splitLinesList]

theorem jsSplitLines_ne_nil (s : String) : jsSplitLines s ≠ [] := by
  rw [jsSplitLines]
  simp [splitLinesList_ne_nil]

theorem jsTrimList_append_ws (l : List Char) (c : Char) (hc : isJsWs c = true) :
    jsTrimList (l ++ [c]) = jsTrimList l := by
  unfold jsTrimList
  rw [List.reverse_append]
  simp [hc]

theorem jsTrim_append_lf (s : String) : jsTrim (s ++ "\n") = jsTrim s := by
  unfold jsTrim
  congr 1
  have h : (s ++ "\n").toList = s.toList ++ ['\n'] := by
    simp [String.toList, String.data_append]
  rw [h, jsTrimList_append_ws _ _ (by decide)]

theorem jsTrim_append_crlf (s : String) : jsTrim (s ++ "\r\n") = jsTrim s := by
  unfold jsTrim
  congr 1
  have h : (s ++ "\r\n").toList = (s.toList ++ ['\r']) ++ ['\n'] := by
    simp [String.toList, String.data_append]
  rw [h, jsTrimList_append_ws _ _ (by decide), jsTrimList_append_ws _ _ (by decide)]

theorem parseLines_cons (hl : String) (ds : List String) :
    parseLines (hl :: ds)
      = ds.map (fun line => buildRow ((hl.splitOn ",").map jsTrim) (line.splitOn ",")) := rfl

/-! ## Blank-line and skipped-row lemmas -/

theorem blankRow_getV (hs : List String) (k : String) (hk : k ∈ hs) :
    getV (buildRow hs ("".splitOn ",")) k = some "" := by
  have hsplit : "".splitOn "," = [""] := by with_unfolding_all rfl
  rw [buildRow, getV_insFold_const]
  · simp [List.enum_map_snd, hk]
  · intro i
    rw [hsplit]
    match i with
    | 0 => rfl
    | n + 1 => rfl

theorem blankRow_not_accepted (hs : List String) :
    rowAccepted (buildRow hs ("".splitOn ",")) = false := by
  unfold rowAccepted
  by_cases h : "County" ∈ hs
  · rw [blankRow_getV hs _ h]
    decide
  · have hnone : getV (buildRow hs ("".splitOn ",")) "County" = none := by
      cases hv : getV (buildRow hs ("".splitOn ",")) "County" with
      | none => rfl
      | some v =>
        exact absurd ((getV_buildRow_isSome hs _ "County").1 (by rw [hv]; rfl)) h
    rw [hnone]
    decide

theorem aggStep_skip (t : List (String × ℚ)) (r : Row) (h : rowAccepted r = false) :
    aggStep t r = t := by
  unfold aggStep
  rw [h]
  rfl

theorem computeCategoryTotals_skip (rs1 rs2 : List Row) (r : Row)
    (h : rowAccepted r = false) :
    computeCategoryTotals (rs1 ++ r :: rs2) = computeCategoryTotals (rs1 ++ rs2) := by
  unfold computeCategoryTotals
  rw [List.foldl_append, List.foldl_append, List.foldl_cons,
    aggStep_skip _ _ h]

/-! ## Extensionality of the aggregator in the observable row content -/

theorem rowAccepted_congr {r r' : Row} (h : RowEquiv r r') :
    rowAccepted r = rowAccepted r' := by
  unfold rowAccepted
  rw [h "County"]

theorem aggStep_congr {r r' : Row} (h : RowEquiv r r') (t : List (String × ℚ)) :
    aggStep t r = aggStep t r' := by
  unfold aggStep
  rw [rowAccepted_congr h]
  by_cases hr : rowAccepted r' = true
  · rw [if_pos hr, if_pos hr]
    exact List.foldl_ext _ _ t (fun t kc _ => by rw [h kc.2])
  · rw [if_neg hr, if_neg hr]

theorem foldl_aggStep_congr (rows rows' : List Row)
    (h : List.Forall₂ RowEquiv rows rows') (t : List (String × ℚ)) :
    rows.foldl aggStep t = rows'.foldl aggStep t := by
  induction h generalizing t with
  | nil => rfl
  | cons hre _ ih => rw [List.foldl_cons, List.foldl_cons, aggStep_congr hre, ih]

/-! ## The aggregator reads the geography only through normCounty -/

theorem columnMap_snd_ne_county : ∀ kc ∈ columnMap, kc.2 ≠ "County" := by decide

theorem aggStep_objInsert_county (t : List (String × ℚ)) (r : Row) (v : String)
    (h : normCounty (some v) = normCounty (getV r "County")) :
    aggStep t (objInsert r "County" v) = aggStep t r := by
  unfold aggStep rowAccepted
  rw [getV_objInsert_self, h]
  by_cases hr : targetCounty.contains (normCounty (getV r "County")) = true
  · rw [if_pos hr, if_pos hr]
    refine List.foldl_ext _ _ t (fun t kc hkc => ?_)
    rw [getV_objInsert_ne _ _ _ _ (columnMap_snd_ne_county kc hkc)]
  · rw [if_neg hr, if_neg hr]

/-! ## Claim theorems -/

/-- C1: for the row sequence `[{County:"ELK", "Proteins LBS":"10"},
{County:"XXX", "Proteins LBS":"999"}, {County:"mar", "Proteins LBS":"5"}]`
with the standard category mapping and filter set, the aggregator returns
`proteins = 15` (the `XXX` row excluded, the lowercase `mar` row included)
and `0` for every other declared category. -/
theorem c1_aggregate_standard_example :
    computeCategoryTotals
      [[("County", "ELK"), ("Proteins LBS", "10")],
       [("County", "XXX"), ("Proteins LBS", "999")],
       [("County", "mar"), ("Proteins LBS", "5")]]
      = [("proteins", 15), ("starch", 0), ("veg", 0), ("fruit", 0),
         ("baked_goods", 0), ("dairy", 0), ("grocery", 0),
         ("individual_meal_lbs", 0)] := by
  with_unfolding_all rfl

/-- C3: `toNum` is total; `none` (null/undefined/missing) and values whose
trimmed form is empty or case-insensitively `NA` give `0`; otherwise, a
trimmed form that parses to a finite number gives that number, and any
other input gives `0`; with the spec's concrete examples. -/
theorem c3_toNum_total :
    toNum none = 0
    ∧ (∀ s : String, jsTrim s = "" → toNum (some s) = 0)
    ∧ (∀ s : String, jsToUpper (jsTrim s) = "NA" → toNum (some s) = 0)
    ∧ (∀ s : String, ∀ q : ℚ, jsTrim s ≠ "" → jsToUpper (jsTrim s) ≠ "NA" →
        jsNumber (jsTrim s) = some q → toNum (some s) = q)
    ∧ (∀ s : String, jsTrim s ≠ "" → jsToUpper (jsTrim s) ≠ "NA" →
        jsNumber (jsTrim s) = none → toNum (some s) = 0)
    ∧ toNum (some "") = 0 ∧ toNum (some "NA") = 0 ∧ toNum (some "na") = 0
    ∧ toNum (some " 12.5 ") = 25 / 2 ∧ toNum (some "abc") = 0 := by
  refine ⟨rfl, ?_, ?_, ?_, ?_, ?_, ?_, ?_, ?_, ?_⟩
  · intro s h
    rw [toNum]
    simp only [Option.getD_some]
    rw [if_pos (Or.inl h)]
  · intro s h
    rw [toNum]
    simp only [Option.getD_some]
    rw [if_pos (Or.inr h)]
  · intro s q h1 h2 h3
    rw [toNum]
    simp only [Option.getD_some]
    rw [if_neg (by tauto), h3]
    rfl
  · intro s h1 h2 h3
    rw [toNum]
    simp only [Option.getD_some]
    rw [if_neg (by tauto), h3]
    rfl
  · with_unfolding_all rfl
  · with_unfolding_all rfl
  · with_unfolding_all rfl
  · with_unfolding_all rfl
  · with_unfolding_all rfl

/-- C3 witness: the "parses to a finite number" branch applied at
`" 12.5 "`. -/
theorem c3_witness : toNum (some " 12.5 ") = 25 / 2 := by
  exact c3_toNum_total.2.2.2.1 " 12.5 " (25 / 2)
    (by rw [show jsTrim " 12.5 " = "12.5" by with_unfolding_all rfl]; decide)
    (by rw [show jsToUpper (jsTrim " 12.5 ") = "12.5" by with_unfolding_all rfl]; decide)
    (by with_unfolding_all rfl)

/-- C4: `normCounty` maps missing input to `""` and otherwise trims and
uppercases (so `" elk "` becomes `"ELK"`), and the aggregator tests
geography membership only on the normalized value: replacing a row's
`County` field by any string with the same normalization leaves the row's
aggregation step unchanged. -/
theorem c4_normalize_geography (t : List (String × ℚ)) (r : Row) (v : String) :
    normCounty none = ""
    ∧ (∀ s : String, normCounty (some s) = jsToUpper (jsTrim s))
    ∧ normCounty (some " elk ") = "ELK"
    ∧ (normCounty (some v) = normCounty (getV r "County") →
        aggStep t (objInsert r "County" v) = aggStep t r) := by
  refine ⟨rfl, fun s => rfl, by decide, fun h => aggStep_objInsert_county t r v h⟩

/-- C4 witness: rewriting `County` from `"ELK"` to `" elk "` does not
change the aggregation step. -/
theorem c4_witness :
    aggStep initTotals (objInsert [("County", "ELK")] "County" " elk ")
      = aggStep initTotals [("County", "ELK")] :=
  (c4_normalize_geography initTotals [("County", "ELK")] " elk ").2.2.2 (by decide)

/-- C5: the totals mapping always has exactly one entry per `columnMap`
key, in declaration order; on no input rows it is the zero-initialized
object; and a category to which no accepted row contributes is still
present with value `0`. -/
theorem c5_totals_shape (rows : List Row) :
    ((computeCategoryTotals rows).map Prod.fst = columnMap.map Prod.fst)
    ∧ computeCategoryTotals [] = columnMap.map (fun p => (p.1, 0))
    ∧ (∀ k c : String, (k, c) ∈ columnMap →
        (∀ r ∈ rows, rowAccepted r = true → toNum (getV r c) = 0) →
        lookupQ (computeCategoryTotals rows) k = some 0) := by
  refine ⟨map_fst_computeCategoryTotals rows, rfl, fun k c hm h => ?_⟩
  rw [lookupQ_computeCategoryTotals rows k c hm]
  have hz : contribSum rows c = 0 := by
    rw [contribSum]
    apply List.sum_eq_zero
    intro x hx
    rw [List.mem_map] at hx
    obtain ⟨r, hr, rfl⟩ := hx
    rw [List.mem_filter] at hr
    exact h r hr.1 hr.2
  rw [hz]

/-- C5 witness: with a single accepted row whose `Starch LBS` cell is
`"NA"`, the `starch` category is still present with value `0`. -/
theorem c5_witness :
    lookupQ (computeCategoryTotals [[("County", "ELK"), ("Starch LBS", "NA")]])
      "starch" = some 0 :=
  (c5_totals_shape [[("County", "ELK"), ("Starch LBS", "NA")]]).2.2
    "starch" "Starch LBS" (by decide) (by with_unfolding_all decide)

/-- C6: a row whose normalized geography is not in the accepted set
contributes nothing at all to the totals, and a row with no `County`
property normalizes to `""`, which is not in the accepted set. -/
theorem c6_row_filter :
    (∀ t : List (String × ℚ), ∀ row : Row,
        rowAccepted row = false → aggStep t row = t)
    ∧ (∀ row : Row, getV row "County" = none → rowAccepted row = false)
    ∧ targetCounty.contains "" = false := by
  refine ⟨aggStep_skip, fun row h => ?_, by decide⟩
  rw [rowAccepted, h]
  decide

/-- C6 witness: a row with county `XXX` leaves the totals untouched. -/
theorem c6_witness :
    aggStep initTotals [("County", "XXX")] = initTotals :=
  c6_row_filter.1 initTotals [("County", "XXX")] (by decide)

theorem nonneg_foldl_aggStep (rows : List Row) (t : List (String × ℚ))
    (h : ∀ r ∈ rows, ∀ kc ∈ columnMap, 0 ≤ toNum (getV r kc.2))
    (ht : ∀ p ∈ t, 0 ≤ p.2) : ∀ p ∈ rows.foldl aggStep t, 0 ≤ p.2 := by
  induction rows generalizing t with
  | nil => exact ht
  | cons r rows ih =>
    rw [List.foldl_cons]
    exact ih _ (fun r hr => h r (List.mem_cons_of_mem _ hr))
      (nonneg_aggStep t r (h r (List.mem_cons_self _ _)) ht)

/-- C7 counterexample: the totals are not non-negative for every row
sequence — a single accepted row with raw value `"-5"` in `Proteins LBS`
produces the negative total `-5` for `proteins`. -/
theorem c7_counterexample :
    ¬ (∀ rows : List Row, ∀ p ∈ computeCategoryTotals rows, 0 ≤ p.2) := by
  intro h
  have hc : computeCategoryTotals [[("County", "ELK"), ("Proteins LBS", "-5")]]
      = [("proteins", -5), ("starch", 0), ("veg", 0), ("fruit", 0),
         ("baked_goods", 0), ("dairy", 0), ("grocery", 0),
         ("individual_meal_lbs", 0)] := by
    with_unfolding_all rfl
  have hmem : (("proteins", (-5 : ℚ)))
      ∈ computeCategoryTotals [[("County", "ELK"), ("Proteins LBS", "-5")]] := by
    rw [hc]
    exact List.mem_cons_self _ _
  have h2 := h _ _ hmem
  norm_num at h2

/-- C7 (amended): when every row's mapped-column cells convert to
non-negative numbers under `toNum`, every value in the totals mapping is
non-negative. -/
theorem c7_amended_nonneg (rows : List Row)
    (h : ∀ r ∈ rows, ∀ kc ∈ columnMap, 0 ≤ toNum (getV r kc.2)) :
    ∀ p ∈ computeCategoryTotals rows, 0 ≤ p.2 := by
  rw [computeCategoryTotals]
  refine nonneg_foldl_aggStep rows initTotals h (fun p hp => ?_)
  rw [initTotals, List.mem_map] at hp
  obtain ⟨q, _, rfl⟩ := hp
  exact le_refl 0

/-- C7 witness: the amended statement applied to one accepted row with
value `15`, at the `proteins` entry of the result. -/
theorem c7_witness : 0 ≤ (("proteins", (15 : ℚ))).2 := by
  refine c7_amended_nonneg [[("County", "ELK"), ("Proteins LBS", "15")]]
    (by with_unfolding_all decide) ("proteins", (15 : ℚ)) ?_
  rw [show computeCategoryTotals [[("County", "ELK"), ("Proteins LBS", "15")]]
      = [("proteins", 15), ("starch", 0), ("veg", 0), ("fruit", 0),
         ("baked_goods", 0), ("dairy", 0), ("grocery", 0),
         ("individual_meal_lbs", 0)] by with_unfolding_all rfl]
  exact List.mem_cons_self _ _

/-- C8: the aggregator is a pure function of the observable content of its
input rows: any two row sequences whose records answer every property
lookup identically produce identical totals (in the embedding, freedom
from side effects and mutation holds by construction; this theorem states
the remaining content, determinism in the inputs). -/
theorem c8_pure_function (rows rows' : List Row)
    (h : List.Forall₂ RowEquiv rows rows') :
    computeCategoryTotals rows = computeCategoryTotals rows' := by
  rw [computeCategoryTotals, computeCategoryTotals]
  exact foldl_aggStep_congr rows rows' h initTotals

/-- C8 witness: applied to two syntactically identical singleton row
lists. -/
theorem c8_witness :
    computeCategoryTotals [[("County", "ELK"), ("Proteins LBS", "10")]]
      = computeCategoryTotals [[("County", "ELK"), ("Proteins LBS", "10")]] :=
  c8_pure_function _ _ (List.Forall₂.cons (fun _ => rfl) List.Forall₂.nil)

/-- C9: the parser is total: the header line always exists after
splitting (so `lines[0]` is never out of bounds), a trailing newline
(either style) never produces a spurious empty-row record because the
whole input is trimmed first, and a line with fewer fields than headers
yields the empty string for every missing column rather than an error. -/
theorem c9_parser_never_fails (text : String) :
    jsSplitLines (jsTrim text) ≠ []
    ∧ parseCSV (text ++ "\n") = parseCSV text
    ∧ parseCSV (text ++ "\r\n") = parseCSV text
    ∧ (∀ hs vs : List String, hs.Nodup → ∀ i : ℕ, ∀ hi : i < hs.length,
        vs.length ≤ i → getV (buildRow hs vs) (hs.get ⟨i, hi⟩) = some "") := by
  refine ⟨jsSplitLines_ne_nil _, ?_, ?_, ?_⟩
  · rw [parseCSV, parseCSV, jsTrim_append_lf]
  · rw [parseCSV, parseCSV, jsTrim_append_crlf]
  · intro hs vs hnd i hi hle
    rw [getV_buildRow_get hs vs hnd i hi, List.get?_eq_none.2 hle]
    rfl

/-- C9 witness: the ragged-line branch applied to headers `H1, H2` and the
single-field value list `["a"]`. -/
theorem c9_witness : getV (buildRow ["H1", "H2"] ["a"]) "H2" = some "" :=
  (c9_parser_never_fails "").2.2.2 ["H1", "H2"] ["a"] (by decide) 1 (by decide) (by decide)

/-- C10: a blank interior line parses to a record mapping every header to
the empty string; such a record is never accepted by the geography filter;
and inserting or removing a blank interior data line leaves the aggregate
totals unchanged. -/
theorem c10_blank_lines (hl : String) (ds1 ds2 : List String) :
    (∀ hs : List String, ∀ k : String, k ∈ hs →
        getV (buildRow hs ("".splitOn ",")) k = some "")
    ∧ (∀ hs : List String, rowAccepted (buildRow hs ("".splitOn ",")) = false)
    ∧ computeCategoryTotals (parseLines (hl :: (ds1 ++ "" :: ds2)))
        = computeCategoryTotals (parseLines (hl :: (ds1 ++ ds2))) := by
  refine ⟨blankRow_getV, blankRow_not_accepted, ?_⟩
  rw [parseLines_cons, parseLines_cons, List.map_append, List.map_append, List.map_cons]
  exact computeCategoryTotals_skip _ _ _ (blankRow_not_accepted _)

/-- C10 witness: the blank record lookup at a concrete header list, and
the totals equality at a concrete three-line input. -/
theorem c10_witness :
    getV (buildRow ["County"] ("".splitOn ",")) "County" = some ""
    ∧ computeCategoryTotals (parseLines ["County,Proteins LBS", "", "ELK,5"])
        = computeCategoryTotals (parseLines ["County,Proteins LBS", "ELK,5"]) :=
  ⟨(c10_blank_lines "x" [] []).1 ["County"] "County" (by decide),
   (c10_blank_lines "County,Proteins LBS" [] ["ELK,5"]).2.2⟩

/-- C2: `parseCSV` yields exactly one record per data line (every line
after the header of the trimmed input); every record's key set is exactly
the trimmed header set; the record pairs the `j`-th header with the
trimmed `j`-th comma-split field of its line, the empty string when the
line is short (extra fields beyond the headers are never consulted); and
the header-only input `"H1,H2\n"` parses to no records. -/
theorem c2_parse_shape (text : String) :
    ((parseCSV text).length = (jsSplitLines (jsTrim text)).length - 1)
    ∧ (∀ r ∈ parseCSV text, ∀ k : String,
        (getV r k).isSome = true ↔ k ∈ headersOfLines (jsSplitLines (jsTrim text)))
    ∧ (∀ i j : ℕ, ∀ r : Row, ∀ h : String,
        (headersOfLines (jsSplitLines (jsTrim text))).Nodup →
        (parseCSV text).get? i = some r →
        (headersOfLines (jsSplitLines (jsTrim text))).get? j = some h →
        getV r h = some (jsTrim
          ((((((jsSplitLines (jsTrim text)).get? (i + 1)).getD "").splitOn ",").get? j).getD "")))
    ∧ parseCSV "H1,H2\n" = [] := by
  refine ⟨?_, ?_, ?_, by decide⟩
  · rw [parseCSV, parseLines, List.length_map, List.length_drop]
  · intro r hr k
    rw [parseCSV, parseLines, List.mem_map] at hr
    obtain ⟨line, _, rfl⟩ := hr
    exact getV_buildRow_isSome _ _ k
  · intro i j r h hnd hr hh
    rw [parseCSV, parseLines, List.get?_eq_getElem?, List.getElem?_map,
      List.getElem?_drop] at hr
    rw [Option.map_eq_some'] at hr
    obtain ⟨line, hline, rfl⟩ := hr
    obtain ⟨hj, rfl⟩ := List.get?_eq_some.1 hh
    rw [getV_buildRow_get _ _ hnd j hj]
    rw [show (jsSplitLines (jsTrim text)).get? (i + 1) = some line by
      rw [List.get?_eq_getElem?, Nat.add_comm i 1]; exact hline]
    rfl

/-- C2 witness: parsing `"H1,H2\na,b"` and reading header `H2` of the
first record through the pairing property. -/
theorem c2_witness : getV [("H1", "a"), ("H2", "b")] "H2" = some "b" := by
  have h := (c2_parse_shape "H1,H2\na,b").2.2.1 0 1 [("H1", "a"), ("H2", "b")] "H2"
    (by with_unfolding_all decide)
    (by with_unfolding_all rfl)
    (by with_unfolding_all rfl)
  exact h.trans (by with_unfolding_all rfl)
